import Mathlib

/-!
Verification development for the kpathdb store engine
(`src/store/index.ts`, `src/db/index.ts`, `src/vector-search/index.ts`).

The TypeScript source is shallowly embedded: every asynchronous operation is
modelled by a pure function returning its observable outcome (the final state
of the returned promise, plus the committed store contents where relevant),
and the IndexedDB engine capabilities the library uses (transactions,
requests, cursors, upgrade callbacks) are modelled at the granularity the
source exercises them.
-/

namespace KPathDB

/-- Error values observable from the library's rejected promises.
`thrown n` stands for an arbitrary caller-thrown error value. -/
inductive JSError where
  | validationFailed (issues : List String)
  | constraintViolation
  | notFound
  | storageFailure (code : Nat)
  | thrown (code : Nat)
  | unknownIDBError
  deriving DecidableEq, Repr

/-- Final observable state of a JS promise. -/
inductive Settle (α : Type) where
  | resolved (v : α)
  | rejected (e : JSError)
  | pending
  deriving DecidableEq, Repr

/-- A single call to a promise executor's `resolve` or `reject`. -/
inductive SettleAttempt (α : Type) where
  | resolve (v : α)
  | reject (e : JSError)
  deriving DecidableEq, Repr

/-- JS promise semantics: `resolve`/`reject` calls on an already-settled
promise are ignored; only the first call counts. -/
def applyAttempt {α : Type} (s : Settle α) (ev : SettleAttempt α) : Settle α :=
  match s with
  | .pending =>
    match ev with
    | .resolve v => .resolved v
    | .reject e => .rejected e
  | s => s

/-- Outcome of a promise given the `resolve`/`reject` calls in event order. -/
def runPromise {α : Type} (evts : List (SettleAttempt α)) : Settle α :=
  evts.foldl applyAttempt .pending

/-- `Store.handleIDBRequest` (src/store/index.ts lines 39-48): resolves with
the request result on success; on error rejects with `request.error`, or with
a fresh "Unknown IndexedDB error" when `request.error` is null. -/
def handleIDBRequest {β : Type} : Except (Option JSError) β → Settle β
  | .ok v => .resolved v
  | .error oe => .rejected (oe.getD .unknownIDBError)

/-! ### Cursor query model (`Store.query`, src/store/index.ts lines 123-156)

The cursor walk delivers records in traversal order; the model takes that
order as the given list. `limit` is `Option Nat`: `none` models an absent
`options.limit`. The JS guard `options?.limit && results.length >= options.limit`
is falsy for `limit === 0`, which `limitHit` reproduces. -/

/-- The JS condition `!predicate || predicate(cursor.value)`. -/
def matchesPred {α : Type} (pred : Option (α → Bool)) (r : α) : Bool :=
  match pred with
  | none => true
  | some p => p r

/-- The JS guard `options?.limit && results.length >= options.limit`. -/
def limitHit (limit : Option Nat) (n : Nat) : Bool :=
  match limit with
  | some l => decide (l ≠ 0) && decide (l ≤ n)
  | none => false

/-- One `onsuccess` step per cursor position: push the value if the predicate
matches, then resolve early if the limit guard fires, else continue the
cursor; a null cursor resolves with the accumulated results. -/
def queryGo {α : Type} (pred : Option (α → Bool)) (limit : Option Nat) :
    List α → List α → List α
  | [], results => results
  | r :: rs, results =>
    let results' := if matchesPred pred r then results ++ [r] else results
    if limitHit limit results'.length then results' else queryGo pred limit rs results'

/-- `Store.query`: run the cursor walk from an empty result accumulator. -/
def Store.query {α : Type} (records : List α) (pred : Option (α → Bool))
    (limit : Option Nat) : List α :=
  queryGo pred limit records []

/-- Cursor walk with a fallible caller-supplied predicate. A predicate that
throws does so inside the cursor's `onsuccess` handler: the exception
propagates out of the handler and aborts the transaction, but the cursor
request is already done, so no `error` event fires on it and neither
`resolve` nor `reject` is ever called - the promise stays pending. -/
def queryGoE {α : Type} (pred : α → Except JSError Bool) (limit : Option Nat) :
    List α → List α → Settle (List α)
  | [], results => .resolved results
  | r :: rs, results =>
    match pred r with
    | .error _ => .pending
    | .ok b =>
      let results' := if b then results ++ [r] else results
      if limitHit limit results'.length then .resolved results'
      else queryGoE pred limit rs results'

/-- `Store.query` with a fallible predicate: promise outcome. -/
def Store.queryE {α : Type} (records : List α) (pred : α → Except JSError Bool)
    (limit : Option Nat) : Settle (List α) :=
  queryGoE pred limit records []

/-! ### Validation model (`Store.add` / `Store.update`, src/store/index.ts 22-37, 68-83)

Each operation is modelled by its observable outcome: the promise settlement,
the committed object-store contents after the single-operation transaction
finishes, and a flag recording whether a transaction was opened at all.
Records are abstract; `keyOf` models primary-key extraction via `keyPath`. -/

/-- Outcome of zod's `schema.safeParse(record)`. -/
inductive ParseResult (α : Type) where
  | success (value : α)
  | failure (issues : List String)

/-- A zod schema, reduced to the capability the store uses. -/
def Schema (α : Type) := α → ParseResult α

/-- The unvalidated part of `Store.add`: a single-operation readwrite
transaction around `store.add(record)`. A key collision makes the request
error with a ConstraintError, which (being unprevented) aborts the
transaction, so nothing is written; otherwise the insert commits. -/
def Store.addUnchecked {α : Type} (keyOf : α → Nat) (s : List α) (r : α) :
    Settle Nat × List α × Bool :=
  if s.any (fun x => keyOf x == keyOf r) then
    (.rejected .constraintViolation, s, true)
  else
    (.resolved (keyOf r), s ++ [r], true)

/-- `Store.add`: validate first (throwing, i.e. rejecting the async method's
promise, before `await this.dbPromise` and before any transaction is
created), then insert. -/
def Store.add {α : Type} (schema : Option (Schema α)) (keyOf : α → Nat)
    (s : List α) (r : α) : Settle Nat × List α × Bool :=
  match schema with
  | some sch =>
    match sch r with
    | .failure issues => (.rejected (.validationFailed issues), s, false)
    | .success _ => Store.addUnchecked keyOf s r
  | none => Store.addUnchecked keyOf s r

/-- The unvalidated part of `Store.update`: `store.put(record)`, an upsert
that replaces by primary key or inserts, then resolves with no value. -/
def Store.putUnchecked {α : Type} (keyOf : α → Nat) (s : List α) (r : α) :
    Settle Unit × List α × Bool :=
  if s.any (fun x => keyOf x == keyOf r) then
    (.resolved (), s.map (fun x => if keyOf x == keyOf r then r else x), true)
  else
    (.resolved (), s ++ [r], true)

/-- `Store.update`: validate first (rejecting before any transaction), then
upsert. -/
def Store.update {α : Type} (schema : Option (Schema α)) (keyOf : α → Nat)
    (s : List α) (r : α) : Settle Unit × List α × Bool :=
  match schema with
  | some sch =>
    match sch r with
    | .failure issues => (.rejected (.validationFailed issues), s, false)
    | .success _ => Store.putUnchecked keyOf s r
  | none => Store.putUnchecked keyOf s r

/-- `Store.getAll` (src/store/index.ts 57-66): a readonly full scan of the
committed contents. -/
def Store.getAll {α : Type} (committed : List α) : List α := committed

/-! ### Transaction escape hatch (`Store.transaction`, src/store/index.ts 158-166)

```
const tx = db.transaction(this.storeName, mode);
tx.onabort = tx.onerror = () => reject(tx.error);
operation(tx).then(resolve).catch(reject);
```

Two models. `transactionOutcome` gives the promise outcome as a function of
the order in which the three settlement sources fire. `transactionAddThenThrow`
runs the specific composite of claim C1 (one `add`, then a throw) against a
transaction-state model with IndexedDB auto-commit semantics. -/

/-- Settlement sources for the `Store.transaction` wrapper promise. -/
inductive TxEvent (α : Type) where
  | opResolved (v : α)
  | opRejected (e : JSError)
  | txAborted (e : JSError)
  deriving DecidableEq

/-- How each source settles the wrapper promise: `operation(tx).then(resolve)`,
`.catch(reject)`, and `tx.onabort = tx.onerror = () => reject(tx.error)`. -/
def txHandler {α : Type} : TxEvent α → SettleAttempt α
  | .opResolved v => .resolve v
  | .opRejected e => .reject e
  | .txAborted e => .reject e

/-- Outcome of the `Store.transaction` promise given the settlement events in
the order they fire. -/
def transactionOutcome {α : Type} (evts : List (TxEvent α)) : Settle α :=
  runPromise (evts.map txHandler)

/-- An open readwrite transaction: base contents, writes from successful
`add` requests, and whether the transaction has been aborted. -/
structure Txn (α : Type) where
  base : List α
  writes : List α
  aborted : Bool

/-- Transaction finish: an aborted transaction rolls every write back;
otherwise the accumulated writes commit. -/
def Txn.commit {α : Type} (t : Txn α) : List α :=
  if t.aborted then t.base else t.base ++ t.writes

/-- A `store.add(record)` request inside an open transaction. A key collision
errors the request with a ConstraintError; the request's error event is
handled but not prevented, so the engine aborts the transaction. -/
def addRequest {α : Type} (keyOf : α → Nat) (t : Txn α) (r : α) :
    Txn α × Except JSError Nat :=
  if (t.base ++ t.writes).any (fun x => keyOf x == keyOf r) then
    ({ t with aborted := true }, .error .constraintViolation)
  else
    ({ t with writes := t.writes ++ [r] }, .ok (keyOf r))

/-- `store.transaction("readwrite", fn)` where `fn` awaits one `add` of `r`
and then throws `e`. The wrapper rejects through `.catch(reject)` (or with
the add's ConstraintError when the key collides, in which case the throw is
never reached). The wrapper never calls `tx.abort()`, so after a successful
add the transaction has no pending requests left and auto-commits. -/
def transactionAddThenThrow {α : Type} (keyOf : α → Nat) (s : List α) (r : α)
    (e : JSError) : Settle Nat × List α :=
  let t0 : Txn α := ⟨s, [], false⟩
  match addRequest keyOf t0 r with
  | (t1, .ok _) => (runPromise [.reject e], t1.commit)
  | (t1, .error ce) => (runPromise [.reject ce], t1.commit)

/-! ### Database handle (`KPathDB`, src/db/index.ts)

Store and index names, like key paths, are opaque identifiers; the model
takes them from an arbitrary type `ν` with decidable equality. `σ` is the
type of zod schema objects, which the database handle only passes along. -/

/-- `StoreConfig` (src/types.ts): the fields `openDB`/`getStore` consult. -/
structure StoreConfig (ν σ : Type) where
  keyPath : ν
  autoIncrement : Bool
  indexes : List ν
  zodSchema : Option σ
  deriving DecidableEq

/-- `DBConfig` (src/types.ts): `stores` is a record, modelled as an
association list in `Object.entries` order. -/
structure DBConfig (ν σ : Type) where
  name : ν
  version : Nat
  stores : List (ν × StoreConfig ν σ)
  deriving DecidableEq

/-- A secondary index as created by `store.createIndex(index, index,
{ unique: false })`. -/
structure IndexSpec (ν : Type) where
  name : ν
  keyPath : ν
  unique : Bool
  deriving DecidableEq

/-- One object store in the engine's schema state. -/
structure ObjectStoreState (ν : Type) where
  keyPath : ν
  autoIncrement : Bool
  indexes : List (IndexSpec ν)
  deriving DecidableEq

/-- The engine's schema state: object stores by name, in creation order. -/
abbrev DBSchemaState (ν : Type) := List (ν × ObjectStoreState ν)

/-- `db.objectStoreNames.contains(storeName)`. -/
def containsStore {ν : Type} [DecidableEq ν] (db : DBSchemaState ν) (name : ν) : Bool :=
  db.any (fun p => decide (p.1 = name))

/-- One iteration of the `onupgradeneeded` forEach (src/db/index.ts 19-31):
skip a store that already exists; otherwise create it and create its
declared indexes. Indexes are only ever created on newly created stores. -/
def upgradeStep {ν σ : Type} [DecidableEq ν] (db : DBSchemaState ν)
    (entry : ν × StoreConfig ν σ) : DBSchemaState ν :=
  if containsStore db entry.1 then db
  else
    db ++ [(entry.1,
      { keyPath := entry.2.keyPath
        autoIncrement := entry.2.autoIncrement
        indexes := entry.2.indexes.map (fun i => ⟨i, i, false⟩) })]

/-- The whole `onupgradeneeded` callback of `KPathDB.openDB`
(src/db/index.ts 17-32). -/
def runUpgrade {ν σ : Type} [DecidableEq ν] (cfg : DBConfig ν σ)
    (db : DBSchemaState ν) : DBSchemaState ν :=
  cfg.stores.foldl upgradeStep db

/-- Whether the schema state has an index named `idx` on store `store`. -/
def hasIndex {ν : Type} [DecidableEq ν] (db : DBSchemaState ν) (store idx : ν) : Bool :=
  db.any (fun p => decide (p.1 = store) && p.2.indexes.any (fun j => decide (j.name = idx)))

/-- The handle `KPathDB.getStore` constructs: the store name it was asked
for, plus the configured schema if the configuration declares one. -/
structure StoreHandle (ν σ : Type) where
  storeName : ν
  schema : Option σ
  deriving DecidableEq

/-- `KPathDB.getStore` (src/db/index.ts 39-42), wrapped in `Except` to expose
the synchronous-throw channel of the TS method. The body reads
`this.config.stores[storeName]?.zodSchema` (safe for unknown names) and
unconditionally constructs a `Store`; it never throws. -/
def getStoreE {ν σ : Type} [DecidableEq ν] (cfg : DBConfig ν σ)
    (storeName : ν) : Except JSError (StoreHandle ν σ) :=
  .ok { storeName := storeName
        schema := (cfg.stores.find? (fun p => decide (p.1 = storeName))).bind
          (fun p => p.2.zodSchema) }

/-- Engine database contents: records per object store. -/
abbrev EngineDB (ν α : Type) := List (ν × List α)

/-- The IndexedDB engine capability `db.transaction(storeName, mode)`
(spec section 6 collaborator): throws a NotFoundError when the named object
store does not exist. -/
def beginTransactionOn {ν α : Type} [DecidableEq ν] (db : EngineDB ν α)
    (name : ν) : Except JSError (List α) :=
  match db.find? (fun p => decide (p.1 = name)) with
  | some p => .ok p.2
  | none => .error .notFound

/-- `Store.get` (src/store/index.ts 50-55) run through the engine: opening
the readonly transaction comes first and is where an unknown store name
fails; afterwards `store.get(key)` resolves with the record or undefined. -/
def Store.getOn {ν σ α : Type} [DecidableEq ν] (db : EngineDB ν α)
    (h : StoreHandle ν σ) (keyOf : α → Nat) (key : Nat) :
    Except JSError (Option α) := do
  let recs ← beginTransactionOn db h.storeName
  pure (recs.find? (fun x => keyOf x == key))

/-! ### Vector similarity (`src/vector-search/index.ts`)

JS numbers are modelled as exact reals. `vecA.reduce((sum, a, i) => ...)` is
a left fold over the list paired with its indices; the out-of-range access
`vecB[i] || 0` is `List.getD` with default 0 (for an in-range index the
`|| 0` coercion maps 0 to 0, leaving the value unchanged). -/

/-- The dot product loop of `cosineSimilarity` (src/vector-search/index.ts 82):
`vecA.reduce((sum, a, i) => sum + a * (vecB[i] || 0), 0)`. -/
noncomputable def dotJS (vecA vecB : List ℝ) : ℝ :=
  vecA.enum.foldl (fun sum p => sum + p.2 * vecB.getD p.1 0) 0

/-- The norm loops of `cosineSimilarity` (src/vector-search/index.ts 83-84):
`Math.sqrt(vec.reduce((sum, a) => sum + a * a, 0))`. -/
noncomputable def normJS (v : List ℝ) : ℝ :=
  Real.sqrt (v.foldl (fun sum a => sum + a * a) 0)

/-- `cosineSimilarity` (src/vector-search/index.ts 81-86):
`normA === 0 || normB === 0 ? 0 : dot / (normA * normB)`. -/
noncomputable def cosineSimilarity (vecA vecB : List ℝ) : ℝ :=
  if normJS vecA = 0 ∨ normJS vecB = 0 then 0
  else dotJS vecA vecB / (normJS vecA * normJS vecB)

/-- A record carrying the embedded vector field the ranker reads
(`(record as any).vector`). -/
structure VRec (α : Type) where
  data : α
  vector : List ℝ

/-- A scored record as returned by the ranker: `{ record, score }`. -/
structure Scored (α : Type) where
  record : α
  score : ℝ

/-- One insertion step of the stable descending sort performed by
`.sort((a, b) => b.score - a.score)`: an element moves past exactly the
strictly higher-scored ones, so equal scores keep their input order. -/
noncomputable def insertScored {α : Type} (x : Scored α) :
    List (Scored α) → List (Scored α)
  | [] => [x]
  | y :: ys => if x.score < y.score then y :: insertScored x ys else x :: y :: ys

/-- Stable sort by strictly descending score: the observable behaviour of
JS `Array.prototype.sort` (stable since ES2019) under the comparator
`(a, b) => b.score - a.score`. -/
noncomputable def sortByScoreDesc {α : Type} : List (Scored α) → List (Scored α)
  | [] => []
  | x :: xs => insertScored x (sortByScoreDesc xs)

/-- The `.map` stage of `CosineSimilaritySearch.search`: the scored
collection before sorting, in traversal order. -/
noncomputable def scoredInOrder {α : Type} (q : List ℝ) (records : List (VRec α)) :
    List (Scored (VRec α)) :=
  records.map (fun r => ⟨r, cosineSimilarity q r.vector⟩)

/-- `CosineSimilaritySearch.search` (src/vector-search/index.ts 68-78):
score every record against the query vector in traversal order, then sort
by descending score. -/
noncomputable def CosineSimilaritySearch.search {α : Type} (q : List ℝ)
    (records : List (VRec α)) : List (Scored (VRec α)) :=
  sortByScoreDesc (scoredInOrder q records)

/-- `Store.findSimilar` (src/store/index.ts 96-99): rank the full collection
and keep the first `limit` entries (`.slice(0, limit)`, default limit 5). -/
noncomputable def Store.findSimilar {α : Type} (records : List (VRec α))
    (q : List ℝ) (limit : Nat) : List (Scored (VRec α)) :=
  (CosineSimilaritySearch.search q records).take limit

/-- The entries of a scored list holding a given score, in order. -/
noncomputable def filterScore {α : Type} (s : ℝ) (l : List (Scored α)) :
    List (Scored α) :=
  l.filter (fun x => decide (x.score = s))

/-! ### Spec-side definitions

These follow the words of the specification (sections 4.2 and 3) and are
compared against the source-derived definitions above. -/

/-- Spec section 4.2: vectors of unequal length are compared up to the
shorter one's indices; the magnitude of a vector is the square root of the
sum of its squared components. -/
noncomputable def dotTruncated (a b : List ℝ) : ℝ :=
  ((a.zip b).map (fun p => p.1 * p.2)).sum

/-- Spec magnitude `||v||`. -/
noncomputable def magnitude (v : List ℝ) : ℝ :=
  Real.sqrt ((v.map (fun x => x * x)).sum)

/-- Spec section 4.2 cosine similarity: `dot(a,b) / (||a|| * ||b||)`, and 0
whenever either vector has zero magnitude. -/
noncomputable def cosineSpec (a b : List ℝ) : ℝ :=
  if magnitude a = 0 ∨ magnitude b = 0 then 0
  else dotTruncated a b / (magnitude a * magnitude b)

/-! ### Claim statements under test

Each `Claim...` definition transcribes one claim of the specification as a
proposition about the embedded code, instantiated at concrete carrier types
so it can be evaluated on concrete inputs. -/

/-- Claim C1's property: when the composed operation performs one successful
`add` and then throws, the wrapper promise rejects with the thrown error AND
the transaction is aborted as a whole, so the added record is not visible in
a subsequent `getAll`. -/
def TransactionAddThenThrowAtomic : Prop :=
  ∀ (s : List Nat) (r : Nat) (e : JSError), s.any (fun x => x == r) = false →
    (transactionAddThenThrow id s r e).1 = Settle.rejected e
      ∧ r ∉ Store.getAll (transactionAddThenThrow id s r e).2

/-- Claim C2's property: the `Store.transaction` promise rejects whenever the
underlying transaction aborts or errors, regardless of where in the event
order the abort fires - including after the operation already resolved. -/
def TransactionRejectsOnAnyAbort : Prop :=
  ∀ evts : List (TxEvent Nat), (∃ e, TxEvent.txAborted e ∈ evts) →
    ∃ e, transactionOutcome evts = Settle.rejected e

/-- Claim C7's property: the upgrade never drops existing stores, and creates
every collection AND every secondary index declared in the configuration but
absent in storage. -/
def UpgradeCreatesAllDeclared (cfg : DBConfig Nat Unit) (db : DBSchemaState Nat) : Prop :=
  (∀ p ∈ db, p ∈ runUpgrade cfg db)
    ∧ (∀ e ∈ cfg.stores, containsStore (runUpgrade cfg db) e.1 = true)
    ∧ (∀ e ∈ cfg.stores, ∀ idx ∈ e.2.indexes, hasIndex (runUpgrade cfg db) e.1 idx = true)

/-- Claim C8's property: requesting a collection name the configuration does
not declare fails fast with a NotFoundError instead of returning a handle. -/
def GetStoreFailsFast : Prop :=
  ∀ (cfg : DBConfig Nat Unit) (name : Nat),
    (∀ p ∈ cfg.stores, p.1 ≠ name) →
      getStoreE cfg name = Except.error JSError.notFound

/-- Claim C9's property: every query settles (resolves or rejects), even when
the caller-supplied predicate throws. -/
def QueryAlwaysSettles : Prop :=
  ∀ (records : List Nat) (pred : Nat → Except JSError Bool) (limit : Option Nat),
    Store.queryE records pred limit ≠ Settle.pending

/-- A concrete schema accepting only 0, used to instantiate claim C3. -/
def zeroOnlySchema : Schema Nat := fun n =>
  if n = 0 then ParseResult.success n else ParseResult.failure ["expected zero"]

/-- A concrete configuration declaring store 10 with secondary index 2, used
to instantiate claim C7 (names are opaque identifiers, here numerals). -/
def cfg7 : DBConfig Nat Unit := ⟨0, 1, [(10, ⟨1, false, [2], none⟩)]⟩

/-- A storage state that already has store 10, without any index. -/
def db7 : DBSchemaState Nat := [(10, ⟨1, false, []⟩)]

/-! ## Theorems -/

/-- A settled promise ignores every later resolve/reject call. -/
theorem foldl_applyAttempt_settled {α : Type} (s : Settle α) (hs : s ≠ Settle.pending) :
    ∀ evts : List (SettleAttempt α), evts.foldl applyAttempt s = s := by
  intro evts
  induction evts with
  | nil => rfl
  | cons ev evs ih =>
    have happ : applyAttempt s ev = s := by
      cases s with
      | pending => exact absurd rfl hs
      | resolved v => rfl
      | rejected e => rfl
    rw [List.foldl_cons, happ, ih]

/-- C1 counterexample: with an empty store, adding record 1 inside
`transaction("readwrite", fn)` and then throwing leaves record 1 committed
and visible in a subsequent getAll, contradicting the claimed atomicity. -/
theorem transaction_add_then_throw_commits : ¬ TransactionAddThenThrowAtomic := by
  intro h
  have h2 := (h [] 1 (JSError.thrown 0) (by decide)).2
  exact h2 (by decide)

/-- C1 (amended): when the composed operation performs one successful `add`
of a fresh-keyed record and then throws, the wrapper promise does reject with
the thrown error, but the wrapper never calls `tx.abort()`, so the completed
add auto-commits and the added record IS visible in a subsequent getAll. -/
theorem transaction_add_then_throw_rejects_but_commits {α : Type} (keyOf : α → Nat)
    (s : List α) (r : α) (e : JSError)
    (hfresh : s.any (fun x => keyOf x == keyOf r) = false) :
    (transactionAddThenThrow keyOf s r e).1 = Settle.rejected e
      ∧ Store.getAll (transactionAddThenThrow keyOf s r e).2 = s ++ [r] := by
  have hstep : addRequest keyOf ⟨s, [], false⟩ r
      = (⟨s, [r], false⟩, Except.ok (keyOf r)) := by
    simp only [addRequest, List.append_nil, hfresh]
    simp
  refine ⟨?_, ?_⟩ <;>
    simp [transactionAddThenThrow, hstep, runPromise, applyAttempt, Txn.commit,
      Store.getAll]

/-- C1 amended-claim witness at a concrete input. -/
theorem transaction_add_then_throw_rejects_but_commits_witness :
    ([5] : List Nat).any (fun x => id x == id 7) = false
      ∧ ((transactionAddThenThrow id [5] 7 (JSError.thrown 3)).1
            = Settle.rejected (JSError.thrown 3)
          ∧ Store.getAll (transactionAddThenThrow id [5] 7 (JSError.thrown 3)).2
            = [5] ++ [7]) :=
  ⟨by decide,
    transaction_add_then_throw_rejects_but_commits id [5] 7 (JSError.thrown 3) (by decide)⟩

/-- C2 counterexample: if the operation resolves before the engine aborts
the transaction, the wrapper promise is already settled and the registered
`reject(tx.error)` is a no-op - the abort is not observable. -/
theorem transaction_abort_after_resolve_not_observable : ¬ TransactionRejectsOnAnyAbort := by
  intro h
  rcases h [TxEvent.opResolved 0, TxEvent.txAborted (JSError.storageFailure 0)]
      ⟨JSError.storageFailure 0, by simp⟩ with ⟨e, he⟩
  simp [transactionOutcome, runPromise, txHandler, applyAttempt] at he

/-- C2 (amended): the `Store.transaction` promise settles with whichever
settlement source fires first: an engine abort/error that fires before the
operation settles rejects the promise with the transaction's error, an
operation rejection rejects with the thrown error, and an operation
resolution resolves the promise whatever happens afterwards. -/
theorem transaction_settles_with_first_event {α : Type} (rest : List (TxEvent α))
    (e : JSError) (v : α) :
    transactionOutcome (TxEvent.txAborted e :: rest) = Settle.rejected e
      ∧ transactionOutcome (TxEvent.opRejected e :: rest) = Settle.rejected e
      ∧ transactionOutcome (TxEvent.opResolved v :: rest) = Settle.resolved v := by
  refine ⟨?_, ?_, ?_⟩ <;>
    simp [transactionOutcome, runPromise, txHandler, applyAttempt,
      foldl_applyAttempt_settled]

/-- C3: a record failing schema validation makes both add and update reject
with the validation error carrying the issue list, before any transaction is
opened (third component false), and the committed contents are unchanged, so
getAll returns the same records before and after the failed call. -/
theorem add_update_validation_gate {α : Type} (sch : Schema α) (keyOf : α → Nat)
    (s : List α) (r : α) (issues : List String)
    (hfail : sch r = ParseResult.failure issues) :
    Store.add (some sch) keyOf s r
        = (Settle.rejected (JSError.validationFailed issues), s, false)
      ∧ Store.update (some sch) keyOf s r
        = (Settle.rejected (JSError.validationFailed issues), s, false)
      ∧ Store.getAll (Store.add (some sch) keyOf s r).2.1 = Store.getAll s
      ∧ Store.getAll (Store.update (some sch) keyOf s r).2.1 = Store.getAll s := by
  refine ⟨?_, ?_, ?_, ?_⟩ <;> simp [Store.add, Store.update, hfail, Store.getAll]

/-- C3 witness at a concrete schema and record. -/
theorem add_update_validation_gate_witness :
    zeroOnlySchema 1 = ParseResult.failure ["expected zero"]
      ∧ (Store.add (some zeroOnlySchema) id [0] 1
            = (Settle.rejected (JSError.validationFailed ["expected zero"]), [0], false)
          ∧ Store.update (some zeroOnlySchema) id [0] 1
            = (Settle.rejected (JSError.validationFailed ["expected zero"]), [0], false)
          ∧ Store.getAll (Store.add (some zeroOnlySchema) id [0] 1).2.1 = Store.getAll [0]
          ∧ Store.getAll (Store.update (some zeroOnlySchema) id [0] 1).2.1
            = Store.getAll [0]) :=
  ⟨rfl, add_update_validation_gate zeroOnlySchema id [0] 1 ["expected zero"] rfl⟩

/-- The cursor walk ignores a limit whose guard can never fire. -/
theorem queryGo_noLimit {α : Type} (p : α → Bool) (limit : Option Nat)
    (h : ∀ n, limitHit limit n = false) :
    ∀ records acc : List α, queryGo (some p) limit records acc = acc ++ records.filter p := by
  intro records
  induction records with
  | nil => intro acc; simp [queryGo]
  | cons r rs ih =>
    intro acc
    by_cases hp : p r
    · simp [queryGo, matchesPred, hp, h, ih]
    · simp [queryGo, matchesPred, hp, h, ih]

/-- C10: `limit: 0` is falsy in the guard `options?.limit && ...`, so it is
treated as an absent limit: the query returns every matching record in
traversal order, exactly as with no limit at all. -/
theorem query_limit_zero_means_no_limit {α : Type} (records : List α) (p : α → Bool) :
    Store.query records (some p) (some 0) = records.filter p
      ∧ Store.query records (some p) (some 0) = Store.query records (some p) none := by
  have h0 : ∀ n, limitHit (some 0) n = false := by intro n; simp [limitHit]
  have hn : ∀ n, limitHit none n = false := by intro n; simp [limitHit]
  constructor
  · simpa using queryGo_noLimit p (some 0) h0 records []
  · rw [Store.query, Store.query, queryGo_noLimit p (some 0) h0 records [],
      queryGo_noLimit p none hn records []]

/-- C8 counterexample: with an empty configuration, `getStore` for the
undeclared name 3 does not fail - it returns a (schema-less) handle. -/
theorem getStore_returns_handle_for_unknown_name : ¬ GetStoreFailsFast := by
  intro h
  have := h ⟨0, 1, []⟩ 3 (by simp)
  simp [getStoreE] at this

/-- C8 (amended): `getStore` never fails fast: for any name, declared or not,
it returns a handle carrying that name. An undeclared name instead surfaces
as the engine's NotFoundError when the first operation on the handle opens a
transaction. -/
theorem getStore_unknown_name_fails_on_first_operation {ν σ α : Type} [DecidableEq ν]
    (cfg : DBConfig ν σ) (name : ν) (db : EngineDB ν α) (keyOf : α → Nat) (key : Nat)
    (habs : ∀ p ∈ db, p.1 ≠ name) :
    ∃ h : StoreHandle ν σ, getStoreE cfg name = Except.ok h ∧ h.storeName = name
      ∧ Store.getOn db h keyOf key = Except.error JSError.notFound := by
  have hfind : db.find? (fun p => decide (p.1 = name)) = none :=
    List.find?_eq_none.mpr (by intro x hx; simpa using habs x hx)
  refine ⟨_, rfl, rfl, ?_⟩
  simp [Store.getOn, beginTransactionOn, hfind, Bind.bind, Except.bind]

/-- C8 amended-claim witness at a concrete configuration and engine state. -/
theorem getStore_unknown_name_fails_on_first_operation_witness :
    (∀ p ∈ ([] : EngineDB Nat Nat), p.1 ≠ 3)
      ∧ ∃ h : StoreHandle Nat Unit,
          getStoreE ⟨0, 1, []⟩ 3 = Except.ok h ∧ h.storeName = 3
            ∧ Store.getOn ([] : EngineDB Nat Nat) h id 0 = Except.error JSError.notFound :=
  ⟨by simp,
    getStore_unknown_name_fails_on_first_operation ⟨0, 1, []⟩ 3 [] id 0 (by simp)⟩

/-- C9 counterexample: a predicate that throws on the first record leaves the
query promise pending forever - neither resolve nor reject is ever called. -/
theorem query_throwing_predicate_hangs : ¬ QueryAlwaysSettles := by
  intro h
  exact h [0] (fun _ => Except.error (JSError.thrown 0)) none rfl

/-- The fallible cursor walk agrees with the pure one when the predicate
never throws. -/
theorem queryGoE_ok {α : Type} (p : α → Bool) (limit : Option Nat) :
    ∀ records acc : List α,
      queryGoE (fun r => Except.ok (p r)) limit records acc
        = Settle.resolved (queryGo (some p) limit records acc) := by
  intro records
  induction records with
  | nil => intro acc; rfl
  | cons r rs ih =>
    intro acc
    by_cases hl : limitHit limit (if p r then acc ++ [r] else acc).length
    · simp [queryGoE, queryGo, matchesPred, hl]
    · simp [queryGoE, queryGo, matchesPred, hl, ih]

/-- C9 (amended): operations settle at most once by promise semantics, and
they settle exactly once as long as caller-supplied code does not throw:
`handleIDBRequest` always settles its promise, and a query with a
non-throwing predicate resolves exactly once, with the pure cursor-walk
result. The one exception is a throwing predicate, which leaves the query
promise pending (see the counterexample). -/
theorem query_settles_without_throwing_predicate {α β : Type}
    (records : List α) (p : α → Bool) (limit : Option Nat)
    (req : Except (Option JSError) β) :
    Store.queryE records (fun r => Except.ok (p r)) limit
        = Settle.resolved (Store.query records (some p) limit)
      ∧ handleIDBRequest req ≠ Settle.pending := by
  constructor
  · exact queryGoE_ok p limit records []
  · cases req with
    | ok v => simp [handleIDBRequest]
    | error oe => simp [handleIDBRequest]

/-- C9 amended-claim witness at concrete inputs. -/
theorem query_settles_without_throwing_predicate_witness :
    Store.queryE ([0, 1] : List Nat) (fun r => Except.ok (r == 0)) none
        = Settle.resolved (Store.query ([0, 1] : List Nat) (some fun n => n == 0) none)
      ∧ handleIDBRequest (Except.ok (0 : Nat) : Except (Option JSError) Nat)
        ≠ Settle.pending :=
  query_settles_without_throwing_predicate [0, 1] (fun n => n == 0) none (Except.ok 0)

/-- With a positive limit, the cursor walk collects matches into the
accumulator and stops right when the limit-th match is pushed. -/
theorem queryGo_limit_count {α : Type} (p : α → Bool) (l : Nat) :
    ∀ records acc : List α, acc.length < l →
      queryGo (some p) (some l) records acc
        = acc ++ (records.filter p).take (l - acc.length) := by
  intro records
  induction records with
  | nil => intro acc _; simp [queryGo]
  | cons r rs ih =>
    intro acc hacc
    have hl0 : l ≠ 0 := by omega
    obtain ⟨k, hk⟩ : ∃ k, l - acc.length = k + 1 := ⟨l - acc.length - 1, by omega⟩
    by_cases hp : p r = true
    · by_cases hfull : l ≤ acc.length + 1
      · have hhit : limitHit (some l) (acc.length + 1) = true := by
          simp [limitHit, hl0]
          omega
        have hk0 : k = 0 := by omega
        simp [queryGo, matchesPred, hp, hhit, List.filter_cons, hk, hk0]
      · have hnohit : limitHit (some l) (acc.length + 1) = false := by
          simp [limitHit]
          omega
        have hrec := ih (acc ++ [r]) (by simp; omega)
        have hk' : l - (acc ++ [r]).length = k := by simp; omega
        rw [hk'] at hrec
        simp [queryGo, matchesPred, hp, hnohit, hrec, List.filter_cons, hk]
    · have hnohit : limitHit (some l) acc.length = false := by
        simp [limitHit]
        omega
      have hrec := ih acc hacc
      simp [queryGo, matchesPred, hp, hnohit, hrec, List.filter_cons]

/-- Once the traversal prefix already contains enough matches to hit the
limit, nothing past that prefix is ever reached: the walk is unchanged by
any continuation of the traversal and by any predicate change outside the
prefix. -/
theorem queryGo_stops_at_limit {α : Type} (p p' : α → Bool) (l : Nat) :
    ∀ pre suf acc : List α, acc.length < l →
      l ≤ acc.length + (pre.filter p).length →
      (∀ r ∈ pre, p' r = p r) →
      queryGo (some p') (some l) (pre ++ suf) acc = queryGo (some p) (some l) pre acc := by
  intro pre
  induction pre with
  | nil =>
    intro suf acc hacc hle _
    simp at hle
    omega
  | cons r rs ih =>
    intro suf acc hacc hle hagree
    have hr : p' r = p r := hagree r (List.mem_cons_self r rs)
    have hagree' : ∀ x ∈ rs, p' x = p x := fun x hx => hagree x (List.mem_cons_of_mem r hx)
    by_cases hp : p r = true
    · by_cases hfull : l ≤ acc.length + 1
      · have hl0 : l ≠ 0 := by omega
        have hhit : limitHit (some l) (acc.length + 1) = true := by
          simp [limitHit, hl0]
          omega
        simp [queryGo, matchesPred, hr, hp, hhit]
      · have hnohit : limitHit (some l) (acc.length + 1) = false := by
          simp [limitHit]
          omega
        have hle' : l ≤ (acc ++ [r]).length + (rs.filter p).length := by
          simp [List.filter_cons, hp] at hle ⊢
          omega
        have hrec := ih suf (acc ++ [r]) (by simp; omega) hle' hagree'
        simp [queryGo, matchesPred, hr, hp, hnohit, hrec]
    · have hnohit : limitHit (some l) acc.length = false := by
        simp [limitHit]
        omega
      have hle' : l ≤ acc.length + (rs.filter p).length := by
        simpa [List.filter_cons, hp] using hle
      have hrec := ih suf acc hacc hle' hagree'
      simp [queryGo, matchesPred, hr, hp, hnohit, hrec]

/-- C6: with a positive limit, query returns exactly the first `limit`
matching records in traversal order (all matches when fewer match), and it
never consults the predicate past the limit-th match: once a traversal
prefix contains `limit` matches, appending any further records and changing
the predicate anywhere outside that prefix leaves the result unchanged. -/
theorem query_limit_correct {α : Type} (records pre suf : List α) (p p' : α → Bool)
    (l : Nat) (hl : 0 < l) :
    Store.query records (some p) (some l) = (records.filter p).take l
      ∧ (l ≤ (pre.filter p).length → (∀ r ∈ pre, p' r = p r) →
          Store.query (pre ++ suf) (some p') (some l) = Store.query pre (some p) (some l)) := by
  constructor
  · have h := queryGo_limit_count p l records [] (by simpa using hl)
    simpa [Store.query] using h
  · intro h1 h2
    exact queryGo_stops_at_limit p p' l pre suf [] (by simpa using hl) (by simpa using h1) h2

/-- C6 witness: the spec's scenario - ten records, five matching, limit 3. -/
theorem query_limit_correct_witness :
    (0 : Nat) < 3
      ∧ (Store.query ([0, 1, 2, 3, 4, 5, 6, 7, 8, 9] : List Nat)
            (some fun n => n % 2 == 0) (some 3)
          = (([0, 1, 2, 3, 4, 5, 6, 7, 8, 9] : List Nat).filter
              (fun n => n % 2 == 0)).take 3
        ∧ (3 ≤ (([0, 1, 2, 3, 4] : List Nat).filter (fun n => n % 2 == 0)).length →
            (∀ r ∈ ([0, 1, 2, 3, 4] : List Nat),
              (fun n => n % 2 == 0) r = (fun n => n % 2 == 0) r) →
            Store.query (([0, 1, 2, 3, 4] : List Nat) ++ [5, 6, 7, 8, 9])
                (some fun n => n % 2 == 0) (some 3)
              = Store.query ([0, 1, 2, 3, 4] : List Nat)
                  (some fun n => n % 2 == 0) (some 3))) :=
  ⟨by decide,
    query_limit_correct [0, 1, 2, 3, 4, 5, 6, 7, 8, 9] [0, 1, 2, 3, 4] [5, 6, 7, 8, 9]
      (fun n => n % 2 == 0) (fun n => n % 2 == 0) 3 (by decide)⟩

/-- A store present before an upgrade step is still present after it. -/
theorem containsStore_upgradeStep {ν σ : Type} [DecidableEq ν] (db : DBSchemaState ν)
    (e : ν × StoreConfig ν σ) (n : ν) (h : containsStore db n = true) :
    containsStore (upgradeStep db e) n = true := by
  unfold upgradeStep
  split
  · exact h
  · simp only [containsStore, List.any_append, Bool.or_eq_true]
    exact Or.inl h

/-- After its own upgrade step, a declared store is present. -/
theorem containsStore_upgradeStep_self {ν σ : Type} [DecidableEq ν]
    (db : DBSchemaState ν) (e : ν × StoreConfig ν σ) :
    containsStore (upgradeStep db e) e.1 = true := by
  unfold upgradeStep
  split
  · assumption
  · simp only [containsStore, List.any_append, Bool.or_eq_true]
    right
    simp

/-- A store present before the upgrade loop is still present after it. -/
theorem containsStore_foldl {ν σ : Type} [DecidableEq ν]
    (entries : List (ν × StoreConfig ν σ)) :
    ∀ (db : DBSchemaState ν) (n : ν), containsStore db n = true →
      containsStore (entries.foldl upgradeStep db) n = true := by
  induction entries with
  | nil => intro db n h; exact h
  | cons e es ih =>
    intro db n h
    exact ih (upgradeStep db e) n (containsStore_upgradeStep db e n h)

/-- Every declared store is present after the upgrade loop. -/
theorem declared_contained {ν σ : Type} [DecidableEq ν]
    (entries : List (ν × StoreConfig ν σ)) :
    ∀ db : DBSchemaState ν, ∀ e ∈ entries,
      containsStore (entries.foldl upgradeStep db) e.1 = true := by
  induction entries with
  | nil => intro db e h; cases h
  | cons f fs ih =>
    intro db e h
    rcases List.mem_cons.mp h with h | h
    · subst h
      exact containsStore_foldl fs (upgradeStep db e) e.1
        (containsStore_upgradeStep_self db e)
    · exact ih (upgradeStep db f) e h

/-- One upgrade step only ever appends to the schema state. -/
theorem upgradeStep_extends {ν σ : Type} [DecidableEq ν] (db : DBSchemaState ν)
    (e : ν × StoreConfig ν σ) : ∃ u, upgradeStep db e = db ++ u := by
  unfold upgradeStep
  split
  · exact ⟨[], by simp⟩
  · exact ⟨_, rfl⟩

/-- The whole upgrade loop only ever appends to the schema state. -/
theorem foldl_upgradeStep_extends {ν σ : Type} [DecidableEq ν]
    (entries : List (ν × StoreConfig ν σ)) :
    ∀ db : DBSchemaState ν, ∃ t, entries.foldl upgradeStep db = db ++ t := by
  induction entries with
  | nil => intro db; exact ⟨[], by simp⟩
  | cons f fs ih =>
    intro db
    rcases upgradeStep_extends db f with ⟨u, hu⟩
    rcases ih (upgradeStep db f) with ⟨t, ht⟩
    exact ⟨u ++ t, by rw [List.foldl_cons, ht, hu, List.append_assoc]⟩

/-- When every declared store is already present, the upgrade loop is the
identity. -/
theorem foldl_upgradeStep_id {ν σ : Type} [DecidableEq ν]
    (entries : List (ν × StoreConfig ν σ)) :
    ∀ db : DBSchemaState ν, (∀ e ∈ entries, containsStore db e.1 = true) →
      entries.foldl upgradeStep db = db := by
  induction entries with
  | nil => intro db _; rfl
  | cons f fs ih =>
    intro db h
    have hf : upgradeStep db f = db := by
      have := h f (List.mem_cons_self f fs)
      simp [upgradeStep, this]
    rw [List.foldl_cons, hf]
    exact ih db (fun e he => h e (List.mem_cons_of_mem f he))

/-- An existing index survives an upgrade step. -/
theorem hasIndex_upgradeStep {ν σ : Type} [DecidableEq ν] (db : DBSchemaState ν)
    (e : ν × StoreConfig ν σ) (s i : ν) (h : hasIndex db s i = true) :
    hasIndex (upgradeStep db e) s i = true := by
  unfold upgradeStep
  split
  · exact h
  · simp only [hasIndex, List.any_append, Bool.or_eq_true]
    exact Or.inl h

/-- An existing index survives the whole upgrade loop. -/
theorem hasIndex_foldl {ν σ : Type} [DecidableEq ν]
    (entries : List (ν × StoreConfig ν σ)) :
    ∀ (db : DBSchemaState ν) (s i : ν), hasIndex db s i = true →
      hasIndex (entries.foldl upgradeStep db) s i = true := by
  induction entries with
  | nil => intro db s i h; exact h
  | cons f fs ih =>
    intro db s i h
    exact ih (upgradeStep db f) s i (hasIndex_upgradeStep db f s i h)

/-- A step for a differently-named store cannot make a store appear. -/
theorem containsStore_upgradeStep_ne {ν σ : Type} [DecidableEq ν]
    (db : DBSchemaState ν) (e : ν × StoreConfig ν σ) (n : ν) (hne : e.1 ≠ n)
    (h : containsStore db n = false) : containsStore (upgradeStep db e) n = false := by
  unfold upgradeStep
  split
  · exact h
  · simp only [containsStore] at h
    simp [containsStore, List.any_append, h, hne]

/-- Creating an absent store creates its declared indexes with it. -/
theorem hasIndex_upgradeStep_create {ν σ : Type} [DecidableEq ν]
    (db : DBSchemaState ν) (e : ν × StoreConfig ν σ) (i : ν)
    (habs : containsStore db e.1 = false) (hi : i ∈ e.2.indexes) :
    hasIndex (upgradeStep db e) e.1 i = true := by
  simp only [upgradeStep, habs, Bool.false_eq_true, if_false]
  simp only [hasIndex, List.any_append, Bool.or_eq_true]
  right
  simp only [List.any_cons, List.any_nil, Bool.or_false, Bool.and_eq_true,
    decide_eq_true_eq]
  refine ⟨by simp, ?_⟩
  simp only [List.any_eq_true]
  exact ⟨⟨i, i, false⟩, List.mem_map_of_mem _ hi, by simp⟩

/-- With distinct declared names, an absent declared store is created with
every one of its declared indexes. -/
theorem runUpgrade_creates_absent {ν σ : Type} [DecidableEq ν]
    (entries : List (ν × StoreConfig ν σ)) :
    ∀ db : DBSchemaState ν, (entries.map Prod.fst).Nodup →
      ∀ e ∈ entries, containsStore db e.1 = false →
        ∀ i ∈ e.2.indexes, hasIndex (entries.foldl upgradeStep db) e.1 i = true := by
  induction entries with
  | nil => intro db _ e he; cases he
  | cons f fs ih =>
    intro db hnodup e he habs i hi
    have hnodup' : f.1 ∉ fs.map Prod.fst ∧ (fs.map Prod.fst).Nodup := by
      rw [List.map_cons, List.nodup_cons] at hnodup
      exact hnodup
    rcases List.mem_cons.mp he with he | he
    · subst he
      exact hasIndex_foldl fs _ e.1 i (hasIndex_upgradeStep_create db e i habs hi)
    · have hne : f.1 ≠ e.1 := by
        intro hcontra
        apply hnodup'.1
        rw [hcontra]
        exact List.mem_map_of_mem Prod.fst he
      exact ih (upgradeStep db f) hnodup'.2 e he
        (containsStore_upgradeStep_ne db f e.1 hne habs) i hi

/-- C7 counterexample: the configuration declares store 10 with secondary
index 2; storage already has store 10 without indexes. The upgrade skips the
existing store entirely, so the declared index is still absent afterwards. -/
theorem upgrade_skips_declared_index_on_existing_store :
    ¬ UpgradeCreatesAllDeclared cfg7 db7 := by
  unfold UpgradeCreatesAllDeclared
  decide

/-- C7 (amended): the upgrade is additive (it only ever appends object
stores, dropping or modifying nothing) and idempotent, and it creates every
declared collection that is absent from storage together with that
collection's declared indexes. A declared index missing from an
already-existing collection is NOT created (see the counterexample). -/
theorem upgrade_additive_idempotent {ν σ : Type} [DecidableEq ν]
    (cfg : DBConfig ν σ) (db : DBSchemaState ν)
    (hnodup : (cfg.stores.map Prod.fst).Nodup) :
    (∃ t, runUpgrade cfg db = db ++ t)
      ∧ runUpgrade cfg (runUpgrade cfg db) = runUpgrade cfg db
      ∧ (∀ e ∈ cfg.stores, containsStore (runUpgrade cfg db) e.1 = true)
      ∧ (∀ e ∈ cfg.stores, containsStore db e.1 = false →
          ∀ i ∈ e.2.indexes, hasIndex (runUpgrade cfg db) e.1 i = true) := by
  refine ⟨foldl_upgradeStep_extends cfg.stores db, ?_, ?_, ?_⟩
  · exact foldl_upgradeStep_id cfg.stores (runUpgrade cfg db)
      (fun e he => declared_contained cfg.stores db e he)
  · exact fun e he => declared_contained cfg.stores db e he
  · exact fun e he habs i hi =>
      runUpgrade_creates_absent cfg.stores db hnodup e he habs i hi

/-- C7 amended-claim witness at a concrete configuration and empty storage. -/
theorem upgrade_additive_idempotent_witness :
    (cfg7.stores.map Prod.fst).Nodup
      ∧ ((∃ t, runUpgrade cfg7 [] = [] ++ t)
          ∧ runUpgrade cfg7 (runUpgrade cfg7 []) = runUpgrade cfg7 []
          ∧ (∀ e ∈ cfg7.stores, containsStore (runUpgrade cfg7 []) e.1 = true)
          ∧ (∀ e ∈ cfg7.stores, containsStore [] e.1 = false →
              ∀ i ∈ e.2.indexes, hasIndex (runUpgrade cfg7 []) e.1 i = true)) :=
  ⟨by decide, upgrade_additive_idempotent cfg7 [] (by decide)⟩

/-- The squared-norm accumulator loop is a sum. -/
theorem foldl_sq_eq_sum :
    ∀ (l : List ℝ) (init : ℝ),
      l.foldl (fun sum a => sum + a * a) init = init + (l.map (fun a => a * a)).sum := by
  intro l
  induction l with
  | nil => intro init; simp
  | cons x xs ih =>
    intro init
    rw [List.foldl_cons, ih, List.map_cons, List.sum_cons]
    ring

/-- The dot-product accumulator loop is a sum. -/
theorem foldl_dot_eq_sum (b : List ℝ) :
    ∀ (l : List (Nat × ℝ)) (init : ℝ),
      l.foldl (fun sum p => sum + p.2 * b.getD p.1 0) init
        = init + (l.map (fun p => p.2 * b.getD p.1 0)).sum := by
  intro l
  induction l with
  | nil => intro init; simp
  | cons x xs ih =>
    intro init
    rw [List.foldl_cons, ih, List.map_cons, List.sum_cons]
    ring

/-- Optional indexing reads the head of the corresponding drop. -/
theorem getElem?_of_drop_cons (b : List ℝ) (n : Nat) (c : ℝ) (cs : List ℝ)
    (hb : b.drop n = c :: cs) : b[n]? = some c := by
  have h := List.getElem?_drop b n 0
  rw [hb] at h
  simpa using h.symm

/-- The indexed dot-product sum equals a sum over the zipped common prefix:
components past the shorter vector only contribute zero terms. -/
theorem enumFrom_dot_eq_zip_drop (b : List ℝ) :
    ∀ (a : List ℝ) (n : Nat),
      ((List.enumFrom n a).map (fun p => p.2 * b.getD p.1 0)).sum
        = ((a.zip (b.drop n)).map (fun p => p.1 * p.2)).sum := by
  intro a
  induction a with
  | nil => intro n; simp
  | cons x xs ih =>
    intro n
    have hstep : List.enumFrom n (x :: xs) = (n, x) :: List.enumFrom (n + 1) xs := rfl
    rw [hstep, List.map_cons, List.sum_cons, ih (n + 1)]
    cases hb : b.drop n with
    | nil =>
      have hlen : b.length ≤ n := by rwa [List.drop_eq_nil_iff] at hb
      have h1 : b[n]? = none := List.getElem?_eq_none hlen
      have h2 : b.drop (n + 1) = [] := by
        rw [List.drop_eq_nil_iff]
        omega
      simp [h1, h2]
    | cons c cs =>
      have h1 : b[n]? = some c := getElem?_of_drop_cons b n c cs hb
      have h2 : b.drop (n + 1) = cs := by
        rw [← List.tail_drop, hb]
        rfl
      simp [h1, h2, List.zip_cons_cons]

/-- The source dot loop computes the spec's truncated dot product. -/
theorem dotJS_eq_dotTruncated (a b : List ℝ) : dotJS a b = dotTruncated a b := by
  unfold dotJS dotTruncated
  rw [show a.enum = List.enumFrom 0 a from rfl, foldl_dot_eq_sum b, zero_add,
    enumFrom_dot_eq_zip_drop b a 0, List.drop_zero]

/-- The source norm loop computes the spec magnitude. -/
theorem normJS_eq_magnitude (v : List ℝ) : normJS v = magnitude v := by
  unfold normJS magnitude
  rw [foldl_sq_eq_sum v 0, zero_add]

/-- C5: the default score is exactly the spec's cosine similarity - the dot
product truncated to the common indices (missing components contributing 0)
divided by the product of the full magnitudes - and it is 0 whenever either
vector has zero magnitude. -/
theorem cosineSimilarity_matches_spec (a b : List ℝ) :
    cosineSimilarity a b = cosineSpec a b
      ∧ (magnitude a = 0 ∨ magnitude b = 0 → cosineSimilarity a b = 0) := by
  have h1 : cosineSimilarity a b = cosineSpec a b := by
    unfold cosineSimilarity cosineSpec
    rw [normJS_eq_magnitude, normJS_eq_magnitude, dotJS_eq_dotTruncated]
  refine ⟨h1, fun h => ?_⟩
  rw [h1]
  unfold cosineSpec
  rw [if_pos h]

/-- C5 witness: the zero-magnitude guard at a concrete vector pair. -/
theorem cosineSimilarity_matches_spec_witness :
    (magnitude [0] = 0 ∨ magnitude ([3] : List ℝ) = 0)
      ∧ cosineSimilarity [0] [3] = 0 := by
  have h0 : magnitude [0] = 0 := by simp [magnitude]
  exact ⟨Or.inl h0, (cosineSimilarity_matches_spec [0] [3]).2 (Or.inl h0)⟩

/-- Insertion produces no new elements. -/
theorem mem_insertScored {α : Type} (x : Scored α) :
    ∀ (l : List (Scored α)) (z : Scored α), z ∈ insertScored x l → z = x ∨ z ∈ l := by
  intro l
  induction l with
  | nil =>
    intro z hz
    simp [insertScored] at hz
    exact Or.inl hz
  | cons y ys ih =>
    intro z hz
    simp only [insertScored] at hz
    split at hz
    · rcases List.mem_cons.mp hz with hz | hz
      · exact Or.inr (List.mem_cons.mpr (Or.inl hz))
      · rcases ih z hz with h | h
        · exact Or.inl h
        · exact Or.inr (List.mem_cons_of_mem y h)
    · rcases List.mem_cons.mp hz with hz | hz
      · exact Or.inl hz
      · exact Or.inr hz

/-- Insertion preserves the descending-score invariant. -/
theorem pairwise_insertScored {α : Type} (x : Scored α) :
    ∀ l : List (Scored α), l.Pairwise (fun a b => b.score ≤ a.score) →
      (insertScored x l).Pairwise (fun a b => b.score ≤ a.score) := by
  intro l
  induction l with
  | nil =>
    intro _
    simp [insertScored]
  | cons y ys ih =>
    intro hp
    rcases List.pairwise_cons.mp hp with ⟨hy, hys⟩
    simp only [insertScored]
    split
    · rename_i hlt
      refine List.pairwise_cons.mpr ⟨?_, ih hys⟩
      intro z hz
      rcases mem_insertScored x ys z hz with h | h
      · rw [h]
        exact le_of_lt hlt
      · exact hy z h
    · rename_i hge
      refine List.pairwise_cons.mpr ⟨?_, hp⟩
      intro z hz
      rcases List.mem_cons.mp hz with h | h
      · rw [h]
        exact le_of_not_lt hge
      · exact le_trans (hy z h) (le_of_not_lt hge)

/-- The sort output is in (weakly) descending score order. -/
theorem pairwise_sortByScoreDesc {α : Type} :
    ∀ l : List (Scored α), (sortByScoreDesc l).Pairwise (fun a b => b.score ≤ a.score) := by
  intro l
  induction l with
  | nil => simp [sortByScoreDesc]
  | cons x xs ih => exact pairwise_insertScored x (sortByScoreDesc xs) ih

/-- One unfolding step of the score filter. -/
theorem filterScore_cons {α : Type} (s : ℝ) (z : Scored α) (l : List (Scored α)) :
    filterScore s (z :: l)
      = if z.score = s then z :: filterScore s l else filterScore s l := by
  by_cases hz : z.score = s <;> simp [filterScore, List.filter_cons, hz]

/-- Stability of one insertion: the run of elements holding any given score
gains the inserted element at its front when the score matches, and is
otherwise untouched. -/
theorem filterScore_insertScored {α : Type} (s : ℝ) (x : Scored α) :
    ∀ l : List (Scored α),
      filterScore s (insertScored x l)
        = if x.score = s then x :: filterScore s l else filterScore s l := by
  intro l
  induction l with
  | nil => by_cases hx : x.score = s <;> simp [insertScored, filterScore, hx]
  | cons y ys ih =>
    by_cases hlt : x.score < y.score
    · have hins : insertScored x (y :: ys) = y :: insertScored x ys := by
        simp [insertScored, hlt]
      rw [hins]
      by_cases hy : y.score = s
      · have hx : ¬ x.score = s := by
          intro hxs
          rw [hxs] at hlt
          rw [hy] at hlt
          exact lt_irrefl s hlt
        simp [filterScore_cons, hy, hx, ih]
      · simp [filterScore_cons, hy, ih]
    · have hins : insertScored x (y :: ys) = x :: y :: ys := by
        simp [insertScored, hlt]
      rw [hins]
      simp [filterScore_cons]

/-- Stability of the whole sort: for every score value, the elements holding
it appear in the output exactly as they appear in the input. -/
theorem filterScore_sortByScoreDesc {α : Type} (s : ℝ) :
    ∀ l : List (Scored α), filterScore s (sortByScoreDesc l) = filterScore s l := by
  intro l
  induction l with
  | nil => rfl
  | cons x xs ih =>
    show filterScore s (insertScored x (sortByScoreDesc xs)) = filterScore s (x :: xs)
    rw [filterScore_insertScored, ih, filterScore_cons]

/-- Filtering an initial segment yields an initial segment of the filter. -/
theorem filterScore_take_extends {α : Type} (s : ℝ) (n : Nat) (l : List (Scored α)) :
    filterScore s (l.take n) ++ filterScore s (l.drop n) = filterScore s l := by
  rw [filterScore, filterScore, filterScore, ← List.filter_append, List.take_append_drop]

/-- C4: findSimilar returns at most `limit` records, ordered by descending
score, and the ranking is stable: for every score value, the returned
records holding it form an initial run of the records holding it in the
original traversal order. -/
theorem findSimilar_limit_order_stable {α : Type} (q : List ℝ)
    (records : List (VRec α)) (limit : Nat) :
    (Store.findSimilar records q limit).length ≤ limit
      ∧ (Store.findSimilar records q limit).Pairwise (fun a b => b.score ≤ a.score)
      ∧ ∀ s : ℝ, ∃ t, filterScore s (Store.findSimilar records q limit) ++ t
          = filterScore s (scoredInOrder q records) := by
  refine ⟨?_, ?_, ?_⟩
  · simp only [Store.findSimilar, List.length_take]
    exact min_le_left _ _
  · exact List.Pairwise.sublist (List.take_sublist _ _)
      (pairwise_sortByScoreDesc (scoredInOrder q records))
  · intro s
    refine ⟨filterScore s ((CosineSimilaritySearch.search q records).drop limit), ?_⟩
    show filterScore s ((CosineSimilaritySearch.search q records).take limit)
        ++ filterScore s ((CosineSimilaritySearch.search q records).drop limit)
      = filterScore s (scoredInOrder q records)
    rw [filterScore_take_extends]
    exact filterScore_sortByScoreDesc s (scoredInOrder q records)

end KPathDB
